import Mathlib

/-!
Blog CMS: the in-memory post store and its views.

A shallow embedding of `src/main.go` (namespace `Cms`) and of the earlier
skeleton `src/bone.go` (namespace `Bone`), followed by the theorems about
them.

Modelling conventions

* Go `int` is `Int`.  The only arithmetic on it is `postID++`, executed once
  per stored post, so on the stores reached from `init` or from an empty
  store the counter never exceeds the number of posts held in memory and
  64-bit wrap-around is out of reach.  On a store whose counter is already
  `MaxInt64` the Go statement wraps and `adminHandler` below does not; the
  theorems about the program are stated on the stores it reaches.
* `time.Time` is an instant, an `Int` number of nanoseconds.  The clock is
  part of the state: `clock k` is what the `k`-th call of `time.Now()`
  returns and `reads` counts the calls made so far.
* A Go slice is a `List`; `append(xs, x)` is `xs ++ [x]`, `xs[:5]` is
  `xs.take 5`.  A `for ... range` loop without `break` is a left fold, a loop
  with `break` is a structural recursion that stops at the `break`.
* Library calls enter as their results: `strconv.Atoi` as the parsed `id`,
  `r.BasicAuth()` as an optional pair, `os.Getenv("APP_ENV")` as a string.
  Rendering a template or encoding JSON is represented by the data handed
  over.
* Concurrent submissions are interleavings of the statements of the locked
  block of `adminHandler`, `postID++` counting as a read and a write;
  `sync.Mutex` is a flag that `Lock` takes only when it is free.  A schedule
  names the goroutine that executes the next statement.
-/

namespace Cms

/-- An instant as returned by `time.Now()`, in nanoseconds. -/
abbrev Time := Int

/-- The Go constant `time.Hour`, in nanoseconds. -/
def Hour : Int := 3600 * 1000000000

/-- The struct `Post` of `main.go`. -/
structure Post where
  ID : Int
  Title : String
  Content : String
  Author : String
  Excerpt : String
  CreatedAt : Time
  UpdatedAt : Time
  Published : Bool
  Tags : List String
  ImageURL : String
deriving DecidableEq, Repr

/-- The zero value of `Post`, the initial value of `var selectedPost Post`. -/
def Post.zero : Post :=
  { ID := 0, Title := "", Content := "", Author := "", Excerpt := "",
    CreatedAt := 0, UpdatedAt := 0, Published := false, Tags := [], ImageURL := "" }

/-- The struct `User` of `main.go`. -/
structure User where
  Username : String
  Password : String
  Role : String
deriving DecidableEq, Repr

/-- The struct `BlogData` handed to the templates. -/
structure BlogData where
  Posts : List Post
  Categories : List String
  RecentPosts : List Post
  CurrentPost : Option Post
deriving DecidableEq, Repr

/-- The package-level variable `categories`. -/
def categories : List String := ["Technology", "Lifestyle", "Travel", "Food", "Business"]

/-- The package-level mutable state `posts`, `postID`, together with the clock. -/
structure State where
  posts : List Post
  postID : Int
  clock : Nat → Time
  reads : Nat

/-- One call of `time.Now()`: the next clock value, and the state after the read. -/
def timeNow (s : State) : Time × State :=
  (s.clock s.reads, { s with reads := s.reads + 1 })

/-- The values an admin form submission leaves in the local variables
`title`, `content`, `author`, `excerpt`, `tags`, `published`, `imageURL`. -/
structure Draft where
  title : String
  content : String
  author : String
  excerpt : String
  tags : List String
  published : Bool
  imageURL : String
deriving DecidableEq, Repr

/-- The sample posts and the counter set by `init` (lines 58-84).  The four
calls of `time.Now()` are evaluated in source order. -/
def init (clock : Nat → Time) : State :=
  { posts :=
      [ { ID := 1
          Title := "Welcome to Our Professional Blog"
          Content := "This is a sample blog post to get things started. Our new CMS provides a clean, modern interface for both readers and content creators. With features like categories, tags, and a responsive design, we're ready to deliver great content to our audience."
          Excerpt := "A warm welcome to our new blog platform with enhanced features"
          Author := "Admin"
          CreatedAt := clock 0 + (-72) * Hour
          UpdatedAt := clock 1 + (-72) * Hour
          Published := true
          Tags := ["welcome", "blog", "update"]
          ImageURL := "/static/images/sample-blog.jpg" },
        { ID := 2
          Title := "The Future of Web Development"
          Content := "Web development continues to evolve at a rapid pace. With new frameworks, tools, and methodologies emerging regularly, developers must stay current to remain competitive. In this post, we explore the latest trends and what they mean for the future of web development."
          Excerpt := "Exploring the latest trends in web development and what's coming next"
          Author := "Jane Developer"
          CreatedAt := clock 2 + (-48) * Hour
          UpdatedAt := clock 3 + (-48) * Hour
          Published := true
          Tags := ["webdev", "technology", "programming"]
          ImageURL := "/static/images/webdev.jpg" } ]
    postID := 2
    clock := clock
    reads := 4 }

/-- The sample users set by `init` (lines 87-90). -/
def users : List User :=
  [ { Username := "admin", Password := "admin123", Role := "admin" },
    { Username := "editor", Password := "editor123", Role := "editor" } ]

/-- The `Post` literal of `adminHandler` (lines 199-210) for a given value of
`postID` and given results of its two `time.Now()` calls. -/
def newPost (postID : Int) (d : Draft) (created updated : Time) : Post :=
  { ID := postID
    Title := d.title
    Content := d.content
    Excerpt := d.excerpt
    Author := d.author
    CreatedAt := created
    UpdatedAt := updated
    Published := d.published
    Tags := d.tags
    ImageURL := d.imageURL }

/-- The block of `adminHandler` between `mutex.Lock()` and `mutex.Unlock()`
(lines 197-212): `postID++`, build the literal (reading the clock twice, in
field order), append it to `posts`. -/
def adminHandler (s : State) (d : Draft) : State :=
  let postID := s.postID + 1
  let r1 := timeNow s
  let r2 := timeNow r1.2
  let p := newPost postID d r1.1 r2.1
  { r2.2 with posts := s.posts ++ [p], postID := postID }

/-- Successive form submissions, one after the other. -/
def appendAll (s : State) (ds : List Draft) : State :=
  ds.foldl adminHandler s

/-- The store before anything is in it: no posts, counter at zero. -/
def emptyState (clock : Nat → Time) : State :=
  { posts := [], postID := 0, clock := clock, reads := 0 }

/-- The loop of `indexHandler` (lines 153-158) collecting the published posts. -/
def indexHandler_publishedPosts (posts : List Post) : List Post :=
  posts.foldl (fun publishedPosts post =>
    if post.Published then publishedPosts ++ [post] else publishedPosts) []

/-- The choice of `recentPosts` in `indexHandler` (lines 161-166). -/
def indexHandler_recentPosts (publishedPosts : List Post) : List Post :=
  if publishedPosts.length > 5 then publishedPosts.take 5 else publishedPosts

/-- The data `indexHandler` passes to the template `index.html`. -/
def indexHandler (posts : List Post) : BlogData :=
  let publishedPosts := indexHandler_publishedPosts posts
  let recentPosts := indexHandler_recentPosts publishedPosts
  { Posts := publishedPosts, Categories := categories, RecentPosts := recentPosts,
    CurrentPost := none }

/-- The list `apiPostsHandler` encodes as JSON (lines 278-285). -/
def apiPostsHandler (posts : List Post) : List Post :=
  posts.foldl (fun publishedPosts post =>
    if post.Published then publishedPosts ++ [post] else publishedPosts) []

/-- The first loop of `postHandler` (lines 236-242): `selectedPost` after
scanning `posts`, where `selectedPost` holds `sel` on entry. -/
def postHandler_scan (id : Int) : List Post → Post → Post
  | [], sel => sel
  | p :: rest, sel => if p.ID = id then p else postHandler_scan id rest sel

/-- The lookup of `postHandler` (lines 236-247): `none` stands for the
404 answer "Post not found". -/
def postHandler_lookup (posts : List Post) (id : Int) : Option Post :=
  let selectedPost := postHandler_scan id posts Post.zero
  if selectedPost.ID = 0 then none else some selectedPost

/-- The second loop of `postHandler` (lines 250-258): `recentPosts` after
scanning `posts`, where `recentPosts` holds `acc` on entry. -/
def postHandler_sidebar (excludeID : Int) : List Post → List Post → List Post
  | [], acc => acc
  | p :: rest, acc =>
    if p.Published && p.ID != excludeID then
      if (acc ++ [p]).length ≥ 5 then acc ++ [p]
      else postHandler_sidebar excludeID rest (acc ++ [p])
    else postHandler_sidebar excludeID rest acc

/-- What `postHandler` answers once the `id` parameter has been parsed. -/
inductive PostResponse where
  | notFound : PostResponse
  | page : BlogData → PostResponse
deriving DecidableEq, Repr

/-- The body of `postHandler` after `strconv.Atoi` succeeded (lines 236-265). -/
def postHandler (posts : List Post) (id : Int) : PostResponse :=
  match postHandler_lookup posts id with
  | none => PostResponse.notFound
  | some selectedPost =>
    let recentPosts := postHandler_sidebar selectedPost.ID posts []
    PostResponse.page
      { Posts := posts, RecentPosts := recentPosts, Categories := categories,
        CurrentPost := some selectedPost }

/-- A draft with only a title and the published flag filled in. -/
def draftOf (title : String) (published : Bool) : Draft :=
  { title := title, content := "", author := "", excerpt := "", tags := [],
    published := published, imageURL := "" }

/-- A post with only an ID, a title and the published flag filled in. -/
def postOf (id : Int) (title : String) (published : Bool) : Post :=
  { Post.zero with ID := id, Title := title, Published := published }

/-- Seven short posts; the third is unpublished. -/
def sevenPosts : List Post :=
  [postOf 1 "a" true, postOf 2 "b" true, postOf 3 "c" false, postOf 4 "d" true,
   postOf 5 "e" true, postOf 6 "f" true, postOf 7 "g" true]

/-- The states the running program can be in: the one left by `init`, and
every state a form submission produces from such a state. -/
inductive Reachable (clock : Nat → Time) : State → Prop where
  | init : Reachable clock (init clock)
  | step {s : State} (d : Draft) : Reachable clock s → Reachable clock (adminHandler s d)

/-- The ID discipline of the store: IDs strictly increase along `posts`,
each lies between 1 and the counter `postID`, and the counter is not
negative. -/
def StoreInv (s : State) : Prop :=
  (s.posts.map (fun p => p.ID)).Pairwise (fun a b => a < b)
  ∧ (∀ p ∈ s.posts, 1 ≤ p.ID ∧ p.ID ≤ s.postID)
  ∧ 0 ≤ s.postID

/-- The posts that successive submissions of `ds` add to a store whose
counter is `c` and whose clock has been read `r` times (proof device: the
closed form of `appendAll`). -/
def builtPosts (c : Int) (clock : Nat → Time) (r : Nat) : List Draft → List Post
  | [] => []
  | d :: ds => newPost (c + 1) d (clock r) (clock (r + 1)) :: builtPosts (c + 1) clock (r + 2) ds

/-- The IDs `1, 2, ..., n` as Go `int`s. -/
def idsUpTo (n : Nat) : List Int :=
  (List.range n).map (fun (i : Nat) => (i : Int) + 1)

/-- What `authMiddleware` answers: either it calls `next.ServeHTTP(w, r)`,
or it sets the header `WWW-Authenticate` and sends an error with the given
status and body, without calling `next`. -/
inductive AuthOutcome where
  | next : AuthOutcome
  | error (wwwAuthenticate : String) (status : Nat) (body : String) : AuthOutcome
deriving DecidableEq, Repr

/-- The Go constant `http.StatusUnauthorized`. -/
def StatusUnauthorized : Nat := 401

/-- The credential loop of `authMiddleware` (lines 130-136): the value of
`authenticated` after scanning the users, where it holds `authenticated` on
entry. -/
def authMiddleware_check (username password : String) : List User → Bool → Bool
  | [], authenticated => authenticated
  | user :: rest, authenticated =>
    if user.Username = username ∧ user.Password = password then true
    else authMiddleware_check username password rest authenticated

/-- The handler returned by `authMiddleware(next)` (lines 115-145), as a
function of the user list, of the value of `os.Getenv("APP_ENV")` and of the
result of `r.BasicAuth()` (`none` when its `ok` is false). -/
def authMiddleware (users : List User) (appEnv : String)
    (basicAuth : Option (String × String)) : AuthOutcome :=
  if appEnv = "development" then AuthOutcome.next
  else
    match basicAuth with
    | none => AuthOutcome.error "Basic realm=\"restricted\"" StatusUnauthorized "Unauthorized"
    | some (username, password) =>
      let authenticated := authMiddleware_check username password users false
      if !authenticated then
        AuthOutcome.error "Basic realm=\"restricted\"" StatusUnauthorized "Unauthorized"
      else AuthOutcome.next

/-- Where a goroutine stands in the locked block of `adminHandler`
(lines 197-212).  `postID++` is a read followed by a write. -/
inductive Pc where
  | idle : Pc
  | locked (d : Draft) : Pc
  | loaded (d : Draft) (tmp : Int) : Pc
  | incremented (d : Draft) : Pc
  | built (newPost : Post) : Pc
  | appended : Pc
deriving DecidableEq, Repr

/-- A goroutine submitting the drafts `todo` one after the other. -/
structure Goroutine where
  pc : Pc
  todo : List Draft
deriving DecidableEq, Repr

/-- Two goroutines running against the shared store and the mutex. -/
structure Program where
  shared : State
  mutex : Bool
  g0 : Goroutine
  g1 : Goroutine

/-- The goroutine with the given number (`false` the first, `true` the second). -/
def Program.get (c : Program) (t : Bool) : Goroutine :=
  if t then c.g1 else c.g0

/-- Replace the goroutine with the given number. -/
def Program.set (c : Program) (t : Bool) (g : Goroutine) : Program :=
  if t then { c with g1 := g } else { c with g0 := g }

/-- One statement of goroutine `t`, or `none` when it cannot move: it has no
draft left, or it waits in `mutex.Lock()` while the mutex is held. -/
def stepGoroutine (c : Program) (t : Bool) : Option Program :=
  match (c.get t).pc with
  | Pc.idle =>
    match (c.get t).todo with
    | [] => none
    | d :: ds =>
      if c.mutex then none
      else some (Program.set { c with mutex := true } t { pc := Pc.locked d, todo := ds })
  | Pc.locked d =>
    some (c.set t { c.get t with pc := Pc.loaded d c.shared.postID })
  | Pc.loaded d tmp =>
    some (Program.set { c with shared := { c.shared with postID := tmp + 1 } } t
      { c.get t with pc := Pc.incremented d })
  | Pc.incremented d =>
    let r1 := timeNow c.shared
    let r2 := timeNow r1.2
    some (Program.set { c with shared := r2.2 } t
      { c.get t with pc := Pc.built (newPost c.shared.postID d r1.1 r2.1) })
  | Pc.built p =>
    some (Program.set { c with shared := { c.shared with posts := c.shared.posts ++ [p] } } t
      { c.get t with pc := Pc.appended })
  | Pc.appended =>
    some (Program.set { c with mutex := false } t { c.get t with pc := Pc.idle })

/-- Run the goroutines in the order given by the schedule; `none` when the
schedule picks a goroutine that cannot move. -/
def exec (c : Program) : List Bool → Option Program
  | [] => some c
  | t :: sched =>
    match stepGoroutine c t with
    | none => none
    | some c1 => exec c1 sched

/-- Both goroutines about to submit their drafts to the store `sh`. -/
def start (sh : State) (ds0 ds1 : List Draft) : Program :=
  { shared := sh, mutex := false,
    g0 := { pc := Pc.idle, todo := ds0 }, g1 := { pc := Pc.idle, todo := ds1 } }

/-- Both goroutines are through with all their drafts. -/
def Program.finished (c : Program) : Bool :=
  c.g0.pc == Pc.idle && c.g0.todo.isEmpty && c.g1.pc == Pc.idle && c.g1.todo.isEmpty

/-- Whether a goroutine at this point has taken a draft that is not yet in `posts`. -/
def Pc.inflight : Pc → Nat
  | Pc.idle => 0
  | Pc.locked _ => 1
  | Pc.loaded _ _ => 1
  | Pc.incremented _ => 1
  | Pc.built _ => 1
  | Pc.appended => 0

/-- The number of statements a goroutine at this point has left in the
submission under way. -/
def Pc.remaining : Pc → Nat
  | Pc.idle => 0
  | Pc.locked _ => 5
  | Pc.loaded _ _ => 4
  | Pc.incremented _ => 3
  | Pc.built _ => 2
  | Pc.appended => 1

/-- The number of statements the two goroutines have left altogether. -/
def Program.stepsLeft (c : Program) : Nat :=
  6 * c.g0.todo.length + c.g0.pc.remaining + (6 * c.g1.todo.length + c.g1.pc.remaining)

/-- What a goroutine at this point knows about the shared store (proof
device for the invariant of the concurrent runs). -/
def Pc.holds (sh : State) : Pc → Prop
  | Pc.idle => True
  | Pc.locked _ => sh.postID = sh.posts.length
  | Pc.loaded _ tmp => sh.postID = sh.posts.length ∧ tmp = sh.posts.length
  | Pc.incremented _ => sh.postID = sh.posts.length + 1
  | Pc.built p => sh.postID = sh.posts.length + 1 ∧ p.ID = sh.posts.length + 1
  | Pc.appended => sh.postID = sh.posts.length

/-- The invariant of the concurrent runs that submit `total` drafts to an
empty store: the IDs stored are `1..len(posts)`, every draft is either
waiting, under way or stored, at most one goroutine is inside the locked
block, and the mutex is held exactly when one is. -/
def ProgInv (total : Nat) (c : Program) : Prop :=
  c.shared.posts.map (fun p => p.ID) = idsUpTo c.shared.posts.length
  ∧ c.shared.posts.length + c.g0.todo.length + c.g1.todo.length
      + c.g0.pc.inflight + c.g1.pc.inflight = total
  ∧ (c.g0.pc = Pc.idle ∨ c.g1.pc = Pc.idle)
  ∧ (c.mutex = false ↔ (c.g0.pc = Pc.idle ∧ c.g1.pc = Pc.idle))
  ∧ (c.mutex = false → c.shared.postID = c.shared.posts.length)
  ∧ c.g0.pc.holds c.shared
  ∧ c.g1.pc.holds c.shared

end Cms

namespace Bone

/-- The struct `Post` of `bone.go`. -/
structure Post where
  ID : Int
  Title : String
  Content : String
  Author : String
deriving DecidableEq, Repr

/-- The zero value of `Post`. -/
def Post.zero : Post := { ID := 0, Title := "", Content := "", Author := "" }

/-- The package-level mutable state `posts`, `postID` of `bone.go`. -/
structure State where
  posts : List Post
  postID : Int
deriving DecidableEq, Repr

/-- The state at program start: `bone.go` has no `init`, both variables hold
their zero values. -/
def initial : State := { posts := [], postID := 0 }

/-- The form values `title`, `content`, `author` read by `adminHandler`. -/
structure Draft where
  title : String
  content : String
  author : String
deriving DecidableEq, Repr

/-- The block of `adminHandler` between `mutex.Lock()` and `mutex.Unlock()`
(`bone.go` lines 41-45). -/
def adminHandler (s : State) (d : Draft) : State :=
  let postID := s.postID + 1
  let newPost : Post := { ID := postID, Title := d.title, Content := d.content, Author := d.author }
  { posts := s.posts ++ [newPost], postID := postID }

/-- Successive form submissions, one after the other. -/
def appendAll (s : State) (ds : List Draft) : State :=
  ds.foldl adminHandler s

/-- The loop of `postHandler` (`bone.go` lines 58-64). -/
def postHandler_scan (id : Int) : List Post → Post → Post
  | [], sel => sel
  | p :: rest, sel => if p.ID = id then p else postHandler_scan id rest sel

/-- The post `postHandler` hands to the template `post.html`; there is no
"not found" answer in `bone.go`. -/
def postHandler (posts : List Post) (id : Int) : Post :=
  postHandler_scan id posts Post.zero

end Bone

/-! ## Theorems -/

namespace Cms

theorem publishedLoop_eq (l acc : List Post) :
    l.foldl (fun publishedPosts post =>
      if post.Published then publishedPosts ++ [post] else publishedPosts) acc
      = acc ++ l.filter (fun p => p.Published) := by
  induction l generalizing acc with
  | nil => simp
  | cons p rest ih =>
    cases hp : p.Published <;> simp [List.foldl_cons, ih, hp]

theorem recentPosts_eq_take (publishedPosts : List Post) :
    indexHandler_recentPosts publishedPosts = publishedPosts.take 5 := by
  unfold indexHandler_recentPosts
  split
  · rfl
  · rw [List.take_of_length_le (by omega)]

/-- C2: the published view built by `indexHandler` and the one built by
`apiPostsHandler` are both the filter of `all` by `Published == true`: the
same posts, with the same multiplicities, in the same relative order (a
sublist of `all`), never longer than `all`, and the two handlers agree. -/
theorem published_view_is_filter (all : List Post) :
    indexHandler_publishedPosts all = all.filter (fun p => p.Published)
    ∧ apiPostsHandler all = all.filter (fun p => p.Published)
    ∧ (indexHandler all).Posts = apiPostsHandler all
    ∧ (∀ p, p ∈ apiPostsHandler all ↔ p ∈ all ∧ p.Published = true)
    ∧ (∀ p, p.Published = true → (apiPostsHandler all).count p = all.count p)
    ∧ (∀ p, p.Published = false → (apiPostsHandler all).count p = 0)
    ∧ List.Sublist (apiPostsHandler all) all
    ∧ (apiPostsHandler all).length ≤ all.length := by
  have hidx : indexHandler_publishedPosts all = all.filter (fun p => p.Published) := by
    simp [indexHandler_publishedPosts, publishedLoop_eq]
  have hapi : apiPostsHandler all = all.filter (fun p => p.Published) := by
    simp [apiPostsHandler, publishedLoop_eq]
  refine ⟨hidx, hapi, ?_, ?_, ?_, ?_, ?_, ?_⟩
  · simp [indexHandler, hidx, hapi]
  · intro p
    simp [hapi, List.mem_filter]
  · intro p hp
    rw [hapi, List.count_filter]
    simpa using hp
  · intro p hp
    rw [hapi, List.count_eq_zero]
    simp [List.mem_filter, hp]
  · rw [hapi]
    exact List.filter_sublist all
  · rw [hapi]
    exact List.length_filter_le _ all

/-- C3: the recent-posts list of `indexHandler` has `min 5 (len published)`
elements and is, element by element, the prefix of `published` of that
length; it is what `indexHandler` stores in `RecentPosts`. -/
theorem recent_is_prefix (published : List Post) :
    (indexHandler_recentPosts published).length = min 5 published.length
    ∧ indexHandler_recentPosts published = published.take (min 5 published.length)
    ∧ (∀ i, i < min 5 published.length →
        (indexHandler_recentPosts published)[i]? = published[i]?)
    ∧ (∀ all, (indexHandler all).RecentPosts
        = indexHandler_recentPosts (indexHandler all).Posts) := by
  have h := recentPosts_eq_take published
  refine ⟨?_, ?_, ?_, ?_⟩
  · rw [h, List.length_take]
  · rw [h, List.take_eq_take]
    omega
  · intro i hi
    rw [h, List.getElem?_take]
    simp
    omega
  · intro all
    rfl

theorem sidebar_eq (excludeID : Int) (l acc : List Post) (hacc : acc.length < 5) :
    postHandler_sidebar excludeID l acc
      = acc ++ (l.filter (fun p => p.Published && p.ID != excludeID)).take (5 - acc.length) := by
  induction l generalizing acc with
  | nil => simp [postHandler_sidebar]
  | cons p rest ih =>
    unfold postHandler_sidebar
    by_cases hp : (p.Published && p.ID != excludeID) = true
    · have hf : List.filter (fun p => p.Published && p.ID != excludeID) (p :: rest)
          = p :: List.filter (fun p => p.Published && p.ID != excludeID) rest :=
        List.filter_cons_of_pos hp
      rw [if_pos hp, hf]
      by_cases hlen : (acc ++ [p]).length ≥ 5
      · rw [if_pos hlen]
        have h4 : 5 - acc.length = 1 := by
          simp at hlen
          omega
        rw [h4]
        simp
      · rw [if_neg hlen, ih (acc ++ [p]) (by omega)]
        have hs : 5 - acc.length = (5 - (acc ++ [p]).length) + 1 := by
          simp at hlen ⊢
          omega
        rw [hs, List.take_succ_cons]
        simp
    · have hf : List.filter (fun p => p.Published && p.ID != excludeID) (p :: rest)
          = List.filter (fun p => p.Published && p.ID != excludeID) rest :=
        List.filter_cons_of_neg hp
      rw [if_neg hp, hf]
      exact ih acc hacc

theorem scan_spec (id : Int) (l : List Post) (sel : Post) :
    (postHandler_scan id l sel = sel ∧ ∀ p ∈ l, p.ID ≠ id)
    ∨ ((postHandler_scan id l sel).ID = id ∧ postHandler_scan id l sel ∈ l) := by
  induction l with
  | nil => simp [postHandler_scan]
  | cons p rest ih =>
    unfold postHandler_scan
    by_cases h : p.ID = id
    · rw [if_pos h]
      right
      exact ⟨h, List.mem_cons_self _ _⟩
    · rw [if_neg h]
      rcases ih with ⟨h1, h2⟩ | ⟨h1, h2⟩
      · left
        refine ⟨h1, ?_⟩
        intro q hq
        rcases List.mem_cons.mp hq with rfl | hq
        · exact h
        · exact h2 q hq
      · right
        exact ⟨h1, List.mem_cons_of_mem _ h2⟩

theorem lookup_some_id (posts : List Post) (id : Int) (p : Post)
    (h : postHandler_lookup posts id = some p) : p.ID = id ∧ p.ID ≠ 0 ∧ p ∈ posts := by
  unfold postHandler_lookup at h
  simp only at h
  split at h
  · exact absurd h (by simp)
  · rename_i hz
    have hp : postHandler_scan id posts Post.zero = p := by simpa using h
    rcases scan_spec id posts Post.zero with ⟨h1, _⟩ | ⟨h1, h2⟩
    · rw [h1] at hz
      exact absurd rfl hz
    · rw [hp] at h1 h2 hz
      exact ⟨h1, hz, h2⟩

/-- C4: the sidebar list built by the short-circuiting loop of `postHandler`
is the first 5 elements of `all` filtered by `Published == true` and
`ID != excludeID`; it holds no post with ID `excludeID`, at most 5 elements,
and it is what a successful `postHandler` stores in `RecentPosts`, with the
requested id excluded. -/
theorem sidebar_is_filter_take (all : List Post) (excludeID : Int) :
    postHandler_sidebar excludeID all []
      = (all.filter (fun p => p.Published && p.ID != excludeID)).take 5
    ∧ (∀ p ∈ postHandler_sidebar excludeID all [],
        p.ID ≠ excludeID ∧ p.Published = true ∧ p ∈ all)
    ∧ (postHandler_sidebar excludeID all []).length ≤ 5
    ∧ (∀ data, postHandler all excludeID = PostResponse.page data →
        data.RecentPosts
          = (all.filter (fun p => p.Published && p.ID != excludeID)).take 5) := by
  have h := sidebar_eq excludeID all [] (by simp)
  simp only [List.nil_append, List.length_nil, Nat.sub_zero] at h
  refine ⟨h, ?_, ?_, ?_⟩
  · intro p hp
    rw [h] at hp
    have hm := List.mem_of_mem_take hp
    rw [List.mem_filter] at hm
    obtain ⟨hin, hf⟩ := hm
    simp at hf
    exact ⟨hf.2, hf.1, hin⟩
  · rw [h, List.length_take]
    omega
  · intro data hdata
    unfold postHandler at hdata
    split at hdata
    · exact absurd hdata (by simp)
    · rename_i sel hsel
      have hid := (lookup_some_id all excludeID sel hsel).1
      simp only [PostResponse.page.injEq] at hdata
      rw [← hdata]
      simp only
      rw [hid]
      exact h

/-- C4, at a concrete input: requesting post 2 of `sevenPosts` gives a page
whose sidebar is posts 1, 4, 5, 6, 7. -/
theorem sidebar_is_filter_take_witness :
    postHandler sevenPosts 2 = PostResponse.page
        { Posts := sevenPosts, Categories := categories,
          RecentPosts := [postOf 1 "a" true, postOf 4 "d" true, postOf 5 "e" true,
            postOf 6 "f" true, postOf 7 "g" true],
          CurrentPost := some (postOf 2 "b" true) }
    ∧ [postOf 1 "a" true, postOf 4 "d" true, postOf 5 "e" true,
            postOf 6 "f" true, postOf 7 "g" true]
        = (sevenPosts.filter (fun p => p.Published && p.ID != 2)).take 5 :=
  ⟨by decide, (sidebar_is_filter_take sevenPosts 2).2.2.2
    { Posts := sevenPosts, Categories := categories,
      RecentPosts := [postOf 1 "a" true, postOf 4 "d" true, postOf 5 "e" true,
        postOf 6 "f" true, postOf 7 "g" true],
      CurrentPost := some (postOf 2 "b" true) } (by decide)⟩

theorem scan_of_absent (id : Int) (l : List Post) (sel : Post)
    (h : ∀ p ∈ l, p.ID ≠ id) : postHandler_scan id l sel = sel := by
  induction l with
  | nil => rfl
  | cons q rest ih =>
    unfold postHandler_scan
    rw [if_neg (h q (List.mem_cons_self _ _))]
    exact ih (fun p hp => h p (List.mem_cons_of_mem _ hp))

theorem scan_first_match (id : Int) (pre suf : List Post) (p sel : Post)
    (hpre : ∀ q ∈ pre, q.ID ≠ id) (hp : p.ID = id) :
    postHandler_scan id (pre ++ p :: suf) sel = p := by
  induction pre with
  | nil => simp [postHandler_scan, hp]
  | cons q rest ih =>
    rw [List.cons_append]
    unfold postHandler_scan
    rw [if_neg (hpre q (List.mem_cons_self _ _))]
    exact ih (fun r hr => hpre r (List.mem_cons_of_mem _ hr))

theorem scan_of_unique (id : Int) (l : List Post) (p sel : Post)
    (h : l.filter (fun q => decide (q.ID = id)) = [p]) :
    postHandler_scan id l sel = p := by
  induction l with
  | nil => simp at h
  | cons q rest ih =>
    unfold postHandler_scan
    by_cases hq : q.ID = id
    · rw [if_pos hq]
      rw [List.filter_cons_of_pos (by simpa using hq)] at h
      exact (List.cons.inj h).1
    · rw [if_neg hq]
      rw [List.filter_cons_of_neg (by simpa using hq)] at h
      exact ih h

/-- The zero-value sentinel at work on a list no run of the program produces:
the list holds one post with ID 0, and the lookup for id 0 answers "not
found". -/
theorem lookup_zero_sentinel :
    [postOf 0 "z" true].filter (fun q => decide (q.ID = 0)) = [postOf 0 "z" true]
    ∧ postHandler_lookup [postOf 0 "z" true] 0 = none
    ∧ postHandler [postOf 0 "z" true] 0 = PostResponse.notFound := by
  decide

/-- The lookup of `postHandler` on an arbitrary list: "not found" when no
post has the id, and whenever the id is 0; for an id other than 0, the only
post with that id, and more generally the first one. -/
theorem lookup_cases (all : List Post) (id : Int) :
    ((∀ p ∈ all, p.ID ≠ id) →
        postHandler_lookup all id = none ∧ postHandler all id = PostResponse.notFound)
    ∧ (id = 0 →
        postHandler_lookup all id = none ∧ postHandler all id = PostResponse.notFound)
    ∧ (∀ p, id ≠ 0 → all.filter (fun q => decide (q.ID = id)) = [p] →
        postHandler_lookup all id = some p ∧ p ∈ all)
    ∧ (∀ pre p suf, id ≠ 0 → all = pre ++ p :: suf → (∀ q ∈ pre, q.ID ≠ id) → p.ID = id →
        postHandler_lookup all id = some p) := by
  have hnone : postHandler_lookup all id = none → postHandler all id = PostResponse.notFound := by
    intro h
    simp [postHandler, h]
  have hzero : (postHandler_scan id all Post.zero).ID = 0 → postHandler_lookup all id = none := by
    intro h
    show (if (postHandler_scan id all Post.zero).ID = 0 then none
      else some (postHandler_scan id all Post.zero)) = none
    rw [if_pos h]
  refine ⟨?_, ?_, ?_, ?_⟩
  · intro h
    have h1 : postHandler_lookup all id = none := by
      apply hzero
      rw [scan_of_absent id all Post.zero h]
      rfl
    exact ⟨h1, hnone h1⟩
  · intro h0
    have h1 : postHandler_lookup all id = none := by
      apply hzero
      rcases scan_spec id all Post.zero with ⟨h1, _⟩ | ⟨h1, _⟩
      · rw [h1]
        rfl
      · rw [h1, h0]
    exact ⟨h1, hnone h1⟩
  · intro p hid hf
    have hmem : p ∈ all.filter (fun q => decide (q.ID = id)) := by simp [hf]
    rw [List.mem_filter] at hmem
    have hpid : p.ID = id := by simpa using hmem.2
    refine ⟨?_, hmem.1⟩
    simp [postHandler_lookup, scan_of_unique id all p Post.zero hf, hpid, hid]
  · intro pre p suf hid hall hpre hp
    subst hall
    simp [postHandler_lookup, scan_first_match id pre suf p Post.zero hpre hp, hp, hid]

theorem adminHandler_posts (s : State) (d : Draft) :
    (adminHandler s d).posts
      = s.posts ++ [newPost (s.postID + 1) d (s.clock s.reads) (s.clock (s.reads + 1))] := rfl

theorem appendAll_spec (ds : List Draft) (s : State) :
    (appendAll s ds).posts = s.posts ++ builtPosts s.postID s.clock s.reads ds
    ∧ (appendAll s ds).postID = s.postID + ds.length
    ∧ (appendAll s ds).clock = s.clock
    ∧ (appendAll s ds).reads = s.reads + 2 * ds.length := by
  induction ds generalizing s with
  | nil => simp [appendAll, builtPosts]
  | cons d ds ih =>
    have h := ih (adminHandler s d)
    have hstep : appendAll s (d :: ds) = appendAll (adminHandler s d) ds := rfl
    rw [hstep]
    obtain ⟨h1, h2, h3, h4⟩ := h
    refine ⟨?_, ?_, ?_, ?_⟩
    · rw [h1, adminHandler_posts]
      simp [builtPosts, adminHandler, timeNow]
    · rw [h2]
      simp [adminHandler]
      ring
    · rw [h3]
      rfl
    · rw [h4]
      simp [adminHandler, timeNow]
      ring

theorem builtPosts_ids (c : Int) (clock : Nat → Time) (r : Nat) (ds : List Draft) :
    (builtPosts c clock r ds).map (fun p => p.ID)
      = (List.range ds.length).map (fun (i : Nat) => c + 1 + (i : Int)) := by
  induction ds generalizing c r with
  | nil => simp [builtPosts]
  | cons d ds ih =>
    rw [List.length_cons, List.range_succ_eq_map]
    simp only [builtPosts, List.map_cons, List.map_map]
    rw [ih]
    simp [newPost, Function.comp_def]
    intro a _
    ring

theorem builtPosts_length (c : Int) (clock : Nat → Time) (r : Nat) (ds : List Draft) :
    (builtPosts c clock r ds).length = ds.length := by
  induction ds generalizing c r with
  | nil => rfl
  | cons d ds ih => simp [builtPosts, ih]

theorem builtPosts_mem_id (c : Int) (clock : Nat → Time) (r : Nat) (ds : List Draft)
    (p : Post) (hp : p ∈ builtPosts c clock r ds) : c < p.ID ∧ p.ID ≤ c + ds.length := by
  induction ds generalizing c r with
  | nil => simp [builtPosts] at hp
  | cons d ds ih =>
    simp only [builtPosts, List.mem_cons] at hp
    rcases hp with rfl | hp
    · simp [newPost]
    · have := ih (c + 1) (r + 2) hp
      simp only [List.length_cons]
      push_cast
      omega

theorem scan_built (c : Int) (clock : Nat → Time) (r : Nat) (ds : List Draft) (k : Nat)
    (d : Draft) (sel : Post) (hd : ds[k]? = some d) :
    postHandler_scan (c + k + 1) (builtPosts c clock r ds) sel
      = newPost (c + k + 1) d (clock (r + 2 * k)) (clock (r + 2 * k + 1)) := by
  induction ds generalizing c r k with
  | nil => simp at hd
  | cons d0 ds ih =>
    cases k with
    | zero =>
      simp at hd
      subst hd
      simp [builtPosts, postHandler_scan, newPost]
    | succ k =>
      simp at hd
      have hne : ¬ (newPost (c + 1) d0 (clock r) (clock (r + 1))).ID = c + (k + 1 : Nat) + 1 := by
        simp [newPost]
        omega
      unfold builtPosts postHandler_scan
      rw [if_neg hne]
      have h := ih (c + 1) (r + 2) k hd
      have e1 : c + ((k + 1 : Nat) : Int) + 1 = c + 1 + (k : Int) + 1 := by
        push_cast
        ring
      have e2 : r + 2 * (k + 1) = r + 2 + 2 * k := by ring
      rw [e1, e2]
      exact h

end Cms

namespace Bone

theorem bone_appendAll_ids (ds : List Draft) (s : State) :
    (appendAll s ds).posts.map (fun p => p.ID)
      = s.posts.map (fun p => p.ID)
        ++ (List.range ds.length).map (fun (i : Nat) => s.postID + 1 + (i : Int))
    ∧ (appendAll s ds).postID = s.postID + ds.length := by
  induction ds generalizing s with
  | nil => simp [appendAll]
  | cons d ds ih =>
    have hstep : appendAll s (d :: ds) = appendAll (adminHandler s d) ds := rfl
    obtain ⟨h1, h2⟩ := ih (adminHandler s d)
    rw [hstep, h1, h2, List.length_cons, List.range_succ_eq_map]
    constructor
    · simp [adminHandler, Function.comp_def]
      intro a _
      ring
    · simp [adminHandler]
      ring

theorem bone_appendAll_posts (ds : List Draft) (s : State) :
    ∃ more, (appendAll s ds).posts = s.posts ++ more := by
  induction ds generalizing s with
  | nil => exact ⟨[], by simp [appendAll]⟩
  | cons d ds ih =>
    obtain ⟨more, h⟩ := ih (adminHandler s d)
    refine ⟨Post.mk (s.postID + 1) d.title d.content d.author :: more, ?_⟩
    have hstep : appendAll s (d :: ds) = appendAll (adminHandler s d) ds := rfl
    rw [hstep, h]
    simp [adminHandler]

theorem bone_scan_first_match (id : Int) (pre suf : List Post) (p sel : Post)
    (hpre : ∀ q ∈ pre, q.ID ≠ id) (hp : p.ID = id) :
    postHandler_scan id (pre ++ p :: suf) sel = p := by
  induction pre with
  | nil => simp [postHandler_scan, hp]
  | cons q rest ih =>
    rw [List.cons_append]
    unfold postHandler_scan
    rw [if_neg (hpre q (List.mem_cons_self _ _))]
    exact ih (fun r hr => hpre r (List.mem_cons_of_mem _ hr))

theorem bone_scan_of_absent (id : Int) (l : List Post) (sel : Post)
    (h : ∀ p ∈ l, p.ID ≠ id) : postHandler_scan id l sel = sel := by
  induction l with
  | nil => rfl
  | cons q rest ih =>
    unfold postHandler_scan
    rw [if_neg (h q (List.mem_cons_self _ _))]
    exact ih (fun p hp => h p (List.mem_cons_of_mem _ hp))

theorem bone_appendAll_bound (ds : List Draft) (s : State) (hb : ∀ p ∈ s.posts, p.ID ≤ s.postID) :
    ∀ p ∈ (appendAll s ds).posts, p.ID ≤ s.postID + ds.length := by
  induction ds generalizing s with
  | nil => simpa [appendAll] using hb
  | cons d ds ih =>
    have hstep : appendAll s (d :: ds) = appendAll (adminHandler s d) ds := rfl
    have hb2 : ∀ p ∈ (adminHandler s d).posts, p.ID ≤ (adminHandler s d).postID := by
      intro p hp
      simp only [adminHandler, List.mem_append, List.mem_singleton] at hp ⊢
      rcases hp with hp | rfl
      · have := hb p hp
        omega
      · simp
    intro p hp
    rw [hstep] at hp
    have := ih (adminHandler s d) hb2 p hp
    simp only [adminHandler, List.length_cons] at this ⊢
    push_cast
    omega

/-- The round trip in `bone.go`: after the drafts `ds` have been submitted to
a store whose IDs do not exceed the counter, `postHandler` selects for the
id `postID + k + 1` the post built from `ds[k]`; for an id beyond the last
one it selects the zero `Post`, there being no "not found" answer. -/
theorem append_then_select (ds : List Draft) (s : State)
    (hb : ∀ p ∈ s.posts, p.ID ≤ s.postID) (k : Nat) :
    (∀ d, ds[k]? = some d →
      postHandler (appendAll s ds).posts (s.postID + k + 1)
        = { ID := s.postID + k + 1, Title := d.title, Content := d.content, Author := d.author })
    ∧ (ds.length ≤ k → postHandler (appendAll s ds).posts (s.postID + k + 1) = Post.zero) := by
  constructor
  · intro d hd
    induction ds generalizing s k with
    | nil => simp at hd
    | cons d0 ds ih =>
      have hstep : appendAll s (d0 :: ds) = appendAll (adminHandler s d0) ds := rfl
      have hb2 : ∀ p ∈ (adminHandler s d0).posts, p.ID ≤ (adminHandler s d0).postID := by
        intro p hp
        simp only [adminHandler, List.mem_append, List.mem_singleton] at hp ⊢
        rcases hp with hp | rfl
        · have := hb p hp
          omega
        · simp
      cases k with
      | zero =>
        simp at hd
        subst hd
        obtain ⟨more, hmore⟩ := bone_appendAll_posts ds (adminHandler s d0)
        have e0 : s.postID + ((0 : Nat) : Int) + 1 = s.postID + 1 := by simp
        rw [hstep, hmore, e0]
        simp only [adminHandler, List.append_assoc, List.singleton_append, postHandler]
        apply bone_scan_first_match
        · intro q hq
          have := hb q hq
          omega
        · simp
      | succ k =>
        simp at hd
        have h := ih (adminHandler s d0) hb2 k hd
        rw [hstep]
        have e : s.postID + ((k + 1 : Nat) : Int) + 1 = (adminHandler s d0).postID + (k : Int) + 1 := by
          simp only [adminHandler]
          push_cast
          ring
        rw [e]
        exact h
  · intro hk
    unfold postHandler
    apply bone_scan_of_absent
    intro p hp
    have := bone_appendAll_bound ds s hb p hp
    omega

end Bone

namespace Cms

theorem idsUpTo_eq (n : Nat) :
    (List.range n).map (fun (i : Nat) => (0 : Int) + 1 + (i : Int)) = idsUpTo n := by
  unfold idsUpTo
  apply List.map_congr_left
  intro a _
  ring

/-- C1, as stated, fails on the store of `main.go`: one submission after
`init` leaves the IDs 1, 2, 3 in the store and gives the new post the ID 3,
not the single ID 1; with no submission at all the store already holds the
IDs 1, 2. -/
theorem append_ids_from_init_counterexample :
    (appendAll (init (fun _ => 0)) [draftOf "A" false]).posts.map (fun p => p.ID) = [1, 2, 3]
    ∧ (appendAll (init (fun _ => 0)) [draftOf "A" false]).posts.map (fun p => p.ID) ≠ idsUpTo 1
    ∧ ((appendAll (init (fun _ => 0)) [draftOf "A" false]).posts.drop 2).map (fun p => p.ID)
        ≠ idsUpTo 1
    ∧ (appendAll (init (fun _ => 0)) []).posts.map (fun p => p.ID) ≠ idsUpTo 0 := by
  decide

/-- C1, amended: `N` successive submissions starting from the store left by
`init` of `main.go` (IDs 1 and 2, counter 2) leave exactly the IDs
`1, ..., N+2` in the store, the submitted posts holding `3, ..., N+2` in
call order; starting from an empty store with counter 0, which is where
`bone.go` starts, the IDs are exactly `1, ..., N`. -/
theorem append_ids (clock : Nat → Time) (ds : List Draft) (bds : List Bone.Draft) :
    (appendAll (init clock) ds).posts.map (fun p => p.ID) = idsUpTo (ds.length + 2)
    ∧ ((appendAll (init clock) ds).posts.drop 2).map (fun p => p.ID)
        = (List.range ds.length).map (fun (i : Nat) => (i : Int) + 3)
    ∧ (appendAll (emptyState clock) ds).posts.map (fun p => p.ID) = idsUpTo ds.length
    ∧ (Bone.appendAll Bone.initial bds).posts.map (fun p => p.ID) = idsUpTo bds.length := by
  have hgen : ∀ s : State, (appendAll s ds).posts.map (fun p => p.ID)
        = s.posts.map (fun p => p.ID)
          ++ (List.range ds.length).map (fun (i : Nat) => s.postID + 1 + (i : Int)) := by
    intro s
    rw [(appendAll_spec ds s).1, List.map_append, builtPosts_ids]
  refine ⟨?_, ?_, ?_, ?_⟩
  · rw [hgen]
    unfold idsUpTo
    rw [List.range_succ_eq_map, List.range_succ_eq_map]
    simp [init, Function.comp_def]
    intro a _
    ring
  · rw [(appendAll_spec ds (init clock)).1]
    have hdrop : List.drop 2 ((init clock).posts
        ++ builtPosts (init clock).postID (init clock).clock (init clock).reads ds)
        = builtPosts (init clock).postID (init clock).clock (init clock).reads ds := by
      simp [init]
    rw [hdrop, builtPosts_ids]
    simp [init]
    intro a _
    ring
  · rw [hgen]
    simp [emptyState]
    exact idsUpTo_eq ds.length
  · rw [(Bone.bone_appendAll_ids bds Bone.initial).1]
    simp [Bone.initial]
    exact idsUpTo_eq bds.length

/-- C6: after the drafts `ds` have been submitted in order to an empty store,
the lookup of `postHandler` for `k` with `1 ≤ k ≤ N` returns the post built
from the `k`-th draft, with that draft's title, content, author, excerpt,
published flag, tags and image URL, and the lookup for any `k > N` answers
"not found". -/
theorem append_lookup_roundtrip (clock : Nat → Time) (ds : List Draft) (k : Nat) :
    (∀ d, 1 ≤ k → ds[k - 1]? = some d →
      ∃ p, postHandler_lookup (appendAll (emptyState clock) ds).posts (k : Int) = some p
        ∧ p = newPost (k : Int) d (clock (2 * (k - 1))) (clock (2 * (k - 1) + 1))
        ∧ p.ID = (k : Int) ∧ p.Title = d.title ∧ p.Content = d.content
        ∧ p.Author = d.author ∧ p.Excerpt = d.excerpt ∧ p.Published = d.published
        ∧ p.Tags = d.tags ∧ p.ImageURL = d.imageURL)
    ∧ (ds.length < k →
        postHandler_lookup (appendAll (emptyState clock) ds).posts (k : Int) = none
        ∧ postHandler (appendAll (emptyState clock) ds).posts (k : Int)
            = PostResponse.notFound) := by
  have hposts : (appendAll (emptyState clock) ds).posts = builtPosts 0 clock 0 ds := by
    rw [(appendAll_spec ds (emptyState clock)).1]
    simp [emptyState]
  rw [hposts]
  constructor
  · intro d hk hd
    obtain ⟨j, rfl⟩ : ∃ j, k = j + 1 := ⟨k - 1, by omega⟩
    simp only [Nat.add_sub_cancel] at hd ⊢
    have hscan := scan_built 0 clock 0 ds j d Post.zero hd
    have e : ((j + 1 : Nat) : Int) = 0 + (j : Int) + 1 := by
      push_cast
      ring
    refine ⟨newPost ((j + 1 : Nat) : Int) d (clock (2 * j)) (clock (2 * j + 1)),
      ?_, rfl, rfl, rfl, rfl, rfl, rfl, rfl, rfl, rfl⟩
    unfold postHandler_lookup
    rw [e, hscan]
    simp [newPost]
    omega
  · intro hk
    have habs : ∀ p ∈ builtPosts 0 clock 0 ds, p.ID ≠ (k : Int) := by
      intro p hp
      have := builtPosts_mem_id 0 clock 0 ds p hp
      omega
    have h1 : postHandler_lookup (builtPosts 0 clock 0 ds) (k : Int) = none := by
      unfold postHandler_lookup
      rw [scan_of_absent _ _ _ habs]
      rfl
    refine ⟨h1, ?_⟩
    simp [postHandler, h1]

/-- C6, at the example of the specification: submit "A", then "B"; id 1 gives
the post titled "A", id 2 the post titled "B", id 3 is not found. -/
theorem append_lookup_roundtrip_witness :
    (∃ p, postHandler_lookup
        (appendAll (emptyState (fun _ => 0)) [draftOf "A" false, draftOf "B" false]).posts 1
          = some p ∧ p.Title = "A")
    ∧ (∃ p, postHandler_lookup
        (appendAll (emptyState (fun _ => 0)) [draftOf "A" false, draftOf "B" false]).posts 2
          = some p ∧ p.Title = "B")
    ∧ postHandler_lookup
        (appendAll (emptyState (fun _ => 0)) [draftOf "A" false, draftOf "B" false]).posts 3
          = none := by
  refine ⟨?_, ?_, ?_⟩
  · obtain ⟨p, h1, _, _, h2, _⟩ :=
      (append_lookup_roundtrip (fun _ => 0) [draftOf "A" false, draftOf "B" false] 1).1
        (draftOf "A" false) (by decide) (by decide)
    exact ⟨p, h1, h2⟩
  · obtain ⟨p, h1, _, _, h2, _⟩ :=
      (append_lookup_roundtrip (fun _ => 0) [draftOf "A" false, draftOf "B" false] 2).1
        (draftOf "B" false) (by decide) (by decide)
    exact ⟨p, h1, h2⟩
  · exact ((append_lookup_roundtrip (fun _ => 0) [draftOf "A" false, draftOf "B" false] 3).2
      (by decide)).1

/-- C7, as stated, fails for a clock that advances between two reads: with
`time.Now()` returning 0, 1, 2, ... the stored post has `CreatedAt` 0 and
`UpdatedAt` 1. -/
theorem created_updated_counterexample :
    (adminHandler (emptyState (fun n => (n : Int))) (draftOf "A" false)).posts.map
        (fun p => (p.CreatedAt, p.UpdatedAt)) = [(0, 1)]
    ∧ ¬ ∀ p ∈ (adminHandler (emptyState (fun n => (n : Int))) (draftOf "A" false)).posts,
        p.CreatedAt = p.UpdatedAt := by
  decide

/-- C7, amended: the post stored by a submission has `CreatedAt` equal to
the first and `UpdatedAt` equal to the second of the two clock values read
while the `Post` literal is built; the two fields are equal exactly when the
clock returns the same value on both reads, and `CreatedAt ≤ UpdatedAt`
when the clock never runs backwards. -/
theorem created_updated_two_reads (s : State) (d : Draft) :
    ∃ p, (adminHandler s d).posts = s.posts ++ [p]
      ∧ p.CreatedAt = s.clock s.reads
      ∧ p.UpdatedAt = s.clock (s.reads + 1)
      ∧ (adminHandler s d).reads = s.reads + 2
      ∧ (p.CreatedAt = p.UpdatedAt ↔ s.clock s.reads = s.clock (s.reads + 1))
      ∧ (Monotone s.clock → p.CreatedAt ≤ p.UpdatedAt) :=
  ⟨newPost (s.postID + 1) d (s.clock s.reads) (s.clock (s.reads + 1)),
    rfl, rfl, rfl, rfl, Iff.rfl, fun hmono => hmono (Nat.le_succ s.reads)⟩

/-- C7, at a concrete input: with the clock 0, 1, 2, ... the stored post has
`CreatedAt ≤ UpdatedAt`; with a clock standing still the two are equal. -/
theorem created_updated_two_reads_witness :
    (∃ p, (adminHandler (emptyState (fun n => (n : Int))) (draftOf "A" false)).posts = [p]
      ∧ p.CreatedAt ≤ p.UpdatedAt)
    ∧ (∃ p, (adminHandler (emptyState (fun _ => 7)) (draftOf "A" false)).posts = [p]
      ∧ p.CreatedAt = p.UpdatedAt) := by
  constructor
  · obtain ⟨p, h1, _, _, _, _, h2⟩ :=
      created_updated_two_reads (emptyState (fun n => (n : Int))) (draftOf "A" false)
    exact ⟨p, h1, h2 (fun a b hab => Int.ofNat_le.mpr hab)⟩
  · obtain ⟨p, h1, _, _, _, h2, _⟩ :=
      created_updated_two_reads (emptyState (fun _ => 7)) (draftOf "A" false)
    exact ⟨p, h1, h2.mpr rfl⟩

theorem storeInv_step (s : State) (d : Draft) (h : StoreInv s) : StoreInv (adminHandler s d) := by
  obtain ⟨hpw, hb, h0⟩ := h
  have hid : (adminHandler s d).postID = s.postID + 1 := rfl
  refine ⟨?_, ?_, ?_⟩
  · rw [adminHandler_posts, List.map_append, List.pairwise_append]
    refine ⟨hpw, by simp, ?_⟩
    intro a ha b hb2
    simp only [List.map_cons, List.map_nil, List.mem_singleton] at hb2
    rw [List.mem_map] at ha
    obtain ⟨p, hp, rfl⟩ := ha
    subst hb2
    have := (hb p hp).2
    simp only [newPost]
    omega
  · intro p hp
    rw [adminHandler_posts, List.mem_append, List.mem_singleton] at hp
    rw [hid]
    rcases hp with hp | rfl
    · have := hb p hp
      omega
    · simp only [newPost]
      omega
  · rw [hid]
    omega

theorem storeInv_init (clock : Nat → Time) : StoreInv (init clock) := by
  refine ⟨?_, ?_, ?_⟩
  · simp [init]
  · intro p hp
    simp only [init, List.mem_cons, List.mem_singleton, List.not_mem_nil, or_false] at hp
    rcases hp with rfl | rfl <;> simp [init]
  · simp [init]

theorem storeInv_reachable (clock : Nat → Time) (s : State) (h : Reachable clock s) :
    StoreInv s := by
  induction h with
  | init => exact storeInv_init clock
  | step d _ ih => exact storeInv_step _ d ih

/-- C5: on every post list the program can hold (the store of a state
reachable from `init`), and for every integer id, the lookup of
`postHandler` answers "not found" when no post has that id, and when exactly
one post has that id it returns that post, equal field for field to the
stored one.  The "not found" half holds on any list whatever. -/
theorem lookup_by_id (clock : Nat → Time) (s : State) (h : Reachable clock s) (id : Int) :
    ((∀ p ∈ s.posts, p.ID ≠ id) →
        postHandler_lookup s.posts id = none
        ∧ postHandler s.posts id = PostResponse.notFound)
    ∧ (∀ p, s.posts.filter (fun q => decide (q.ID = id)) = [p] →
        postHandler_lookup s.posts id = some p ∧ p ∈ s.posts
        ∧ ∃ data, postHandler s.posts id = PostResponse.page data
            ∧ data.CurrentPost = some p)
    ∧ (∀ all : List Post, (∀ p ∈ all, p.ID ≠ id) → postHandler_lookup all id = none) := by
  have habsent : ∀ all : List Post, (∀ p ∈ all, p.ID ≠ id) →
      postHandler_lookup all id = none := by
    intro all hall
    show (if (postHandler_scan id all Post.zero).ID = 0 then none
      else some (postHandler_scan id all Post.zero)) = none
    rw [scan_of_absent id all Post.zero hall]
    rfl
  refine ⟨?_, ?_, habsent⟩
  · intro hno
    have h1 := habsent s.posts hno
    exact ⟨h1, by simp [postHandler, h1]⟩
  · intro p hf
    have hmem : p ∈ s.posts.filter (fun q => decide (q.ID = id)) := by simp [hf]
    rw [List.mem_filter] at hmem
    have hpid : p.ID = id := by simpa using hmem.2
    have hpos := ((storeInv_reachable clock s h).2.1 p hmem.1).1
    have hne : ¬ p.ID = 0 := by omega
    have hl : postHandler_lookup s.posts id = some p := by
      show (if (postHandler_scan id s.posts Post.zero).ID = 0 then none
        else some (postHandler_scan id s.posts Post.zero)) = some p
      rw [scan_of_unique id s.posts p Post.zero hf, if_neg hne]
    refine ⟨hl, hmem.1, ?_⟩
    simp [postHandler, hl]

/-- C5, at a concrete input: after `init` and one submission, id 3 is found
and is the submitted post; id 9 is not found. -/
theorem lookup_by_id_witness :
    postHandler_lookup (adminHandler (init (fun _ => 0)) (draftOf "A" true)).posts 3
        = some (newPost 3 (draftOf "A" true) 0 0)
    ∧ postHandler_lookup (adminHandler (init (fun _ => 0)) (draftOf "A" true)).posts 9 = none :=
  ⟨((lookup_by_id (fun _ => 0) (adminHandler (init (fun _ => 0)) (draftOf "A" true))
      (Reachable.step (draftOf "A" true) Reachable.init) 3).2.1
        (newPost 3 (draftOf "A" true) 0 0) (by decide)).1,
   ((lookup_by_id (fun _ => 0) (adminHandler (init (fun _ => 0)) (draftOf "A" true))
      (Reachable.step (draftOf "A" true) Reachable.init) 9).1 (by decide)).1⟩

/-- C8: in every state reachable from the state left by `init` through
form submissions, the IDs of the posts are pairwise distinct, strictly
increasing along the sequence, at least 1 and at most `postID`.  Every
submission keeps this so, leaves each post already stored unchanged at its
position and adds exactly one post at the end, whose ID is the new value of
the counter. -/
theorem reachable_ids_invariant (clock : Nat → Time) (s : State) (h : Reachable clock s) :
    (s.posts.map (fun p => p.ID)).Nodup
    ∧ (s.posts.map (fun p => p.ID)).Pairwise (fun a b => a < b)
    ∧ (∀ p ∈ s.posts, 1 ≤ p.ID ∧ p.ID ≤ s.postID)
    ∧ (∀ d, StoreInv (adminHandler s d)
        ∧ Reachable clock (adminHandler s d)
        ∧ (adminHandler s d).posts.length = s.posts.length + 1
        ∧ (∀ i, i < s.posts.length → (adminHandler s d).posts[i]? = s.posts[i]?)
        ∧ (∃ p, (adminHandler s d).posts = s.posts ++ [p]
            ∧ p.ID = (adminHandler s d).postID ∧ ∀ q ∈ s.posts, q.ID < p.ID))
    ∧ (∀ (t : State) (d : Draft), StoreInv t → StoreInv (adminHandler t d)) := by
  have hinv := storeInv_reachable clock s h
  refine ⟨?_, hinv.1, hinv.2.1, ?_, fun t d ht => storeInv_step t d ht⟩
  · exact List.Pairwise.imp (fun hab => ne_of_lt hab) hinv.1
  · intro d
    refine ⟨storeInv_step s d hinv, Reachable.step d h, ?_, ?_, ?_⟩
    · rw [adminHandler_posts]
      simp
    · intro i hi
      rw [adminHandler_posts, List.getElem?_append_left hi]
    · refine ⟨_, adminHandler_posts s d, rfl, ?_⟩
      intro q hq
      have := (hinv.2.1 q hq).2
      simp only [newPost]
      omega

/-- C8, at a concrete input: the state after `init` and one submission. -/
theorem reachable_ids_invariant_witness :
    ((adminHandler (init (fun _ => 0)) (draftOf "A" true)).posts.map (fun p => p.ID)).Nodup
    ∧ (adminHandler (init (fun _ => 0)) (draftOf "A" true)).posts.map (fun p => p.ID)
        = [1, 2, 3] :=
  ⟨(reachable_ids_invariant (fun _ => 0) (adminHandler (init (fun _ => 0)) (draftOf "A" true))
      (Reachable.step (draftOf "A" true) Reachable.init)).1, by decide⟩

theorem check_iff (username password : String) (us : List User) :
    authMiddleware_check username password us false = true
      ↔ ∃ u ∈ us, u.Username = username ∧ u.Password = password := by
  induction us with
  | nil => simp [authMiddleware_check]
  | cons u rest ih =>
    unfold authMiddleware_check
    by_cases h : u.Username = username ∧ u.Password = password
    · rw [if_pos h]
      simp only [List.mem_cons, true_iff]
      exact ⟨u, Or.inl rfl, h⟩
    · rw [if_neg h, ih]
      constructor
      · rintro ⟨v, hv, hvc⟩
        exact ⟨v, List.mem_cons_of_mem _ hv, hvc⟩
      · rintro ⟨v, hv, hvc⟩
        rcases List.mem_cons.mp hv with rfl | hv
        · exact absurd hvc h
        · exact ⟨v, hv, hvc⟩

/-- C10: `authMiddleware` calls the wrapped handler if and only if `APP_ENV`
is "development" or the request carries Basic-Auth credentials equal to the
(Username, Password) of some user; otherwise it answers 401 "Unauthorized"
with the `WWW-Authenticate` header and does not call the handler.  With the
users of `init` and `APP_ENV` other than "development", a right name with a
wrong password, or with another user's password, is rejected, and the right
pair is accepted. -/
theorem authMiddleware_calls_next_iff (us : List User) (appEnv : String) (basicAuth : Option (String × String)) :
    (authMiddleware us appEnv basicAuth = AuthOutcome.next
      ↔ appEnv = "development"
        ∨ ∃ u ∈ us, basicAuth = some (u.Username, u.Password))
    ∧ (authMiddleware us appEnv basicAuth = AuthOutcome.next
        ∨ authMiddleware us appEnv basicAuth
            = AuthOutcome.error "Basic realm=\"restricted\"" 401 "Unauthorized")
    ∧ (appEnv ≠ "development" →
        authMiddleware users appEnv (some ("admin", "wrong"))
            = AuthOutcome.error "Basic realm=\"restricted\"" 401 "Unauthorized"
        ∧ authMiddleware users appEnv (some ("admin", "editor123"))
            = AuthOutcome.error "Basic realm=\"restricted\"" 401 "Unauthorized"
        ∧ authMiddleware users appEnv none
            = AuthOutcome.error "Basic realm=\"restricted\"" 401 "Unauthorized"
        ∧ authMiddleware users appEnv (some ("admin", "admin123")) = AuthOutcome.next
        ∧ authMiddleware users appEnv (some ("editor", "editor123")) = AuthOutcome.next) := by
  refine ⟨?_, ?_, ?_⟩
  · unfold authMiddleware
    by_cases henv : appEnv = "development"
    · simp [henv]
    · rw [if_neg henv]
      cases basicAuth with
      | none => simp [henv]
      | some c =>
        obtain ⟨username, password⟩ := c
        simp only [henv, false_or]
        cases hc : authMiddleware_check username password us false
        · have hno := (check_iff username password us).not.mp (by simp [hc])
          simp only [Bool.not_false, if_true]
          constructor
          · intro h
            exact absurd h (by simp)
          · rintro ⟨u, hu, hcred⟩
            exfalso
            apply hno
            simp only [Option.some.injEq, Prod.mk.injEq] at hcred
            exact ⟨u, hu, hcred.1.symm, hcred.2.symm⟩
        · obtain ⟨u, hu, h1, h2⟩ := (check_iff username password us).mp hc
          simp only [Bool.not_true, Bool.false_eq_true, if_false, true_iff]
          exact ⟨u, hu, by rw [h1, h2]⟩
  · unfold authMiddleware
    by_cases henv : appEnv = "development"
    · simp [henv]
    · rw [if_neg henv]
      cases basicAuth with
      | none => right; rfl
      | some c =>
        obtain ⟨username, password⟩ := c
        cases hc : authMiddleware_check username password us false
        · right
          simp [hc, StatusUnauthorized]
        · left
          simp [hc]
  · intro henv
    simp only [authMiddleware, if_neg henv]
    decide

/-- C10, at a concrete input: in production the pair admin / editor123 is
turned away and admin / admin123 is let through. -/
theorem authMiddleware_calls_next_iff_witness :
    authMiddleware users "production" (some ("admin", "editor123"))
        = AuthOutcome.error "Basic realm=\"restricted\"" 401 "Unauthorized"
    ∧ authMiddleware users "production" (some ("admin", "admin123")) = AuthOutcome.next :=
  ⟨((authMiddleware_calls_next_iff users "production" none).2.2 (by decide)).2.1,
   ((authMiddleware_calls_next_iff users "production" none).2.2 (by decide)).2.2.2.1⟩

theorem idsUpTo_succ (n : Nat) : idsUpTo (n + 1) = idsUpTo n ++ [(n : Int) + 1] := by
  simp [idsUpTo, List.range_succ]

theorem step_stepsLeft (c c1 : Program) (t : Bool) (h : stepGoroutine c t = some c1) :
    c1.stepsLeft + 1 = c.stepsLeft := by
  obtain ⟨sh, m, ⟨pc0, todo0⟩, ⟨pc1, todo1⟩⟩ := c
  cases t
  · cases pc0 <;> try (cases todo0) <;> try (cases m)
    all_goals simp [stepGoroutine, Program.get, Program.set] at h
    all_goals subst h
    all_goals simp [Program.stepsLeft, Pc.remaining]
    all_goals omega
  · cases pc1 <;> try (cases todo1) <;> try (cases m)
    all_goals simp [stepGoroutine, Program.get, Program.set] at h
    all_goals subst h
    all_goals simp [Program.stepsLeft, Pc.remaining]
    all_goals omega

theorem step_inv (total : Nat) (c c1 : Program) (t : Bool) (hinv : ProgInv total c)
    (h : stepGoroutine c t = some c1) : ProgInv total c1 := by
  obtain ⟨sh, m, ⟨pc0, todo0⟩, ⟨pc1, todo1⟩⟩ := c
  obtain ⟨hids, hcount, hone, hmx, hfree, hp0, hp1⟩ := hinv
  cases t
  · cases pc0 <;> cases pc1 <;> try (cases todo0) <;> try (cases m)
    all_goals simp [stepGoroutine, Program.get, Program.set] at h
    all_goals subst h
    all_goals simp [Pc.holds, Pc.inflight, timeNow] at hids hcount hone hmx hfree hp0 hp1
    all_goals simp [ProgInv, Pc.holds, Pc.inflight, timeNow, newPost, hids, idsUpTo_succ]
    all_goals omega
  · cases pc0 <;> cases pc1 <;> try (cases todo1) <;> try (cases m)
    all_goals simp [stepGoroutine, Program.get, Program.set] at h
    all_goals subst h
    all_goals simp [Pc.holds, Pc.inflight, timeNow] at hids hcount hone hmx hfree hp0 hp1
    all_goals simp [ProgInv, Pc.holds, Pc.inflight, timeNow, newPost, hids, idsUpTo_succ]
    all_goals omega

theorem exec_inv (total : Nat) (sched : List Bool) (c c1 : Program) (hinv : ProgInv total c)
    (h : exec c sched = some c1) : ProgInv total c1 ∧ c1.stepsLeft + sched.length = c.stepsLeft := by
  induction sched generalizing c with
  | nil =>
    simp only [exec, Option.some.injEq] at h
    subst h
    exact ⟨hinv, rfl⟩
  | cons t sched ih =>
    unfold exec at h
    cases hstep : stepGoroutine c t with
    | none => simp [hstep] at h
    | some c2 =>
      rw [hstep] at h
      obtain ⟨h1, h2⟩ := ih c2 (step_inv total c c2 t hinv hstep) h
      have h3 := step_stepsLeft c c2 t hstep
      refine ⟨h1, ?_⟩
      simp only [List.length_cons]
      omega

theorem start_inv (clock : Nat → Time) (ds0 ds1 : List Draft) :
    ProgInv (ds0.length + ds1.length) (start (emptyState clock) ds0 ds1) := by
  simp [ProgInv, start, emptyState, Pc.holds, Pc.inflight, idsUpTo]

theorem inv_progress (total : Nat) (c : Program) (hinv : ProgInv total c)
    (hfin : c.finished = false) : ∃ t, (stepGoroutine c t).isSome = true := by
  obtain ⟨sh, m, ⟨pc0, todo0⟩, ⟨pc1, todo1⟩⟩ := c
  obtain ⟨_, _, hone, hmx, _, _, _⟩ := hinv
  by_cases h0 : pc0 = Pc.idle
  · by_cases h1 : pc1 = Pc.idle
    · subst h0 h1
      have hm : m = false := by simpa using hmx
      subst hm
      cases todo0 with
      | nil =>
        cases todo1 with
        | nil => simp [Program.finished] at hfin
        | cons d ds => exact ⟨true, by simp [stepGoroutine, Program.get]⟩
      | cons d ds => exact ⟨false, by simp [stepGoroutine, Program.get]⟩
    · refine ⟨true, ?_⟩
      cases pc1 <;> simp [stepGoroutine, Program.get] at h1 ⊢
  · refine ⟨false, ?_⟩
    cases pc0 <;> simp [stepGoroutine, Program.get] at h0 ⊢

theorem inv_finished (total : Nat) (c : Program) (hinv : ProgInv total c)
    (hfin : c.finished = true) :
    c.shared.posts.length = total
    ∧ c.shared.posts.map (fun p => p.ID) = idsUpTo total
    ∧ c.stepsLeft = 0 := by
  obtain ⟨sh, m, ⟨pc0, todo0⟩, ⟨pc1, todo1⟩⟩ := c
  obtain ⟨hids, hcount, _, _, _, _, _⟩ := hinv
  simp [Program.finished] at hfin
  obtain ⟨⟨⟨h0, ht0⟩, h1⟩, ht1⟩ := hfin
  subst h0 h1 ht0 ht1
  simp [Pc.inflight] at hcount
  simp only at hids
  refine ⟨hcount, ?_, ?_⟩
  · rw [← hcount]
    exact hids
  · simp [Program.stepsLeft, Pc.remaining]

theorem exec_block (c : Program) (t : Bool) (d : Draft) (ds : List Draft)
    (hm : c.mutex = false) (hpc : (c.get t).pc = Pc.idle) (htodo : (c.get t).todo = d :: ds) :
    exec c [t, t, t, t, t, t]
      = some (Program.set { c with shared := adminHandler c.shared d } t
          { pc := Pc.idle, todo := ds }) := by
  obtain ⟨sh, m, ⟨pc0, todo0⟩, ⟨pc1, todo1⟩⟩ := c
  cases t <;> simp [Program.get] at hm hpc htodo <;> subst hm hpc htodo <;>
    simp [exec, stepGoroutine, Program.get, Program.set, adminHandler, timeNow]

theorem idsUpTo_mem (n : Nat) (i : Int) : i ∈ idsUpTo n ↔ 1 ≤ i ∧ i ≤ n := by
  simp only [idsUpTo, List.mem_map, List.mem_range]
  constructor
  · rintro ⟨a, ha, rfl⟩
    omega
  · intro h
    refine ⟨(i - 1).toNat, ?_, ?_⟩ <;> omega

theorem idsUpTo_nodup (n : Nat) : (idsUpTo n).Nodup := by
  unfold idsUpTo
  apply List.Nodup.map _ (List.nodup_range n)
  intro a b hab
  simpa using hab

/-- C9: two goroutines submit 100 drafts each to an empty store, every
submission being the block `mutex.Lock(); postID++; build the post; append;
mutex.Unlock()` executed statement by statement (`postID++` as a read and a
write).  Whatever the interleaving `sched` of their statements: when both are
through, the store holds exactly 200 posts whose IDs are 1, ..., 200 in
order, without duplicate or gap, the run then having taken all 1200
statements; before that some goroutine can always move; no run is longer
than 1200 statements; and at every point at most one goroutine is inside the
block, the mutex being held exactly then. -/
theorem concurrent_appends (clock : Nat → Time) (ds0 ds1 : List Draft) (sched : List Bool)
    (c : Program) (h0 : ds0.length = 100) (h1 : ds1.length = 100)
    (hrun : exec (start (emptyState clock) ds0 ds1) sched = some c) :
    (c.finished = true →
        c.shared.posts.length = 200
        ∧ c.shared.posts.map (fun p => p.ID) = idsUpTo 200
        ∧ (c.shared.posts.map (fun p => p.ID)).Nodup
        ∧ (∀ i : Int, i ∈ c.shared.posts.map (fun p => p.ID) ↔ 1 ≤ i ∧ i ≤ 200)
        ∧ sched.length = 1200)
    ∧ (c.finished = false → ∃ t, (stepGoroutine c t).isSome = true)
    ∧ sched.length ≤ 1200
    ∧ (c.g0.pc = Pc.idle ∨ c.g1.pc = Pc.idle)
    ∧ (c.mutex = false ↔ (c.g0.pc = Pc.idle ∧ c.g1.pc = Pc.idle)) := by
  have hstart := start_inv clock ds0 ds1
  rw [h0, h1] at hstart
  obtain ⟨hinv, hlen⟩ := exec_inv 200 sched _ c hstart hrun
  have hsteps : (start (emptyState clock) ds0 ds1).stepsLeft = 1200 := by
    simp [Program.stepsLeft, start, Pc.remaining, h0, h1]
  rw [hsteps] at hlen
  refine ⟨?_, inv_progress 200 c hinv, by omega, hinv.2.2.1, hinv.2.2.2.1⟩
  intro hfin
  obtain ⟨hl, hids, hz⟩ := inv_finished 200 c hinv hfin
  refine ⟨hl, hids, ?_, ?_, by omega⟩
  · rw [hids]
    exact idsUpTo_nodup 200
  · intro i
    rw [hids, idsUpTo_mem]
    simp

set_option maxRecDepth 100000 in
/-- C9, at a concrete input: the goroutines take turns, one whole submission
each, 100 times; the run is complete and leaves the IDs 1, ..., 200. -/
theorem concurrent_appends_witness :
    (exec (start (emptyState (fun n => (n : Int))) (List.replicate 100 (draftOf "A" false))
        (List.replicate 100 (draftOf "B" true)))
      (List.replicate 100
        [false, false, false, false, false, false, true, true, true, true, true, true]).flatten).map
      (fun c => (c.finished, c.shared.posts.map (fun p => p.ID))) = some (true, idsUpTo 200) := by
  have hfin : (exec (start (emptyState (fun n => (n : Int)))
        (List.replicate 100 (draftOf "A" false)) (List.replicate 100 (draftOf "B" true)))
      (List.replicate 100
        [false, false, false, false, false, false, true, true, true, true, true, true]).flatten).map
      Program.finished = some true := by decide
  cases hrun : exec (start (emptyState (fun n => (n : Int)))
        (List.replicate 100 (draftOf "A" false)) (List.replicate 100 (draftOf "B" true)))
      (List.replicate 100
        [false, false, false, false, false, false, true, true, true, true, true, true]).flatten with
  | none =>
    rw [hrun] at hfin
    exact absurd hfin (by simp)
  | some c =>
    rw [hrun] at hfin
    have hc : c.finished = true := by simpa using hfin
    have h := (concurrent_appends (fun n => (n : Int)) (List.replicate 100 (draftOf "A" false))
      (List.replicate 100 (draftOf "B" true)) _ c (by simp) (by simp) hrun).1 hc
    simp [hc, h.2.1]

end Cms
